import Mathlib

/-!
Verification of the real-time audio streaming core of the AI-Writer
repository (src/components/LiveVoice.tsx and src/services/gemini.ts).

The TypeScript source is shallowly embedded: byte sequences are `List Nat`
(each element < 256), base64 text is the `List Nat` of its character codes,
audio samples are `ℚ` (the sample arithmetic performed by the source —
multiplication by 32768, truncation, division by 32768 — is exact on the
rationals involved), and the stateful message handler becomes an explicit
state-passing function.
-/

namespace LiveVoice

/-! ## Base64 (browser btoa / atob)

`createBlob` builds a binary string from the PCM bytes and calls `btoa`;
`decode` calls `atob` and reads the character codes back.  Both are modelled
on lists of character codes / bytes.  `atob` implements the forgiving-base64
decode: it fails (throws InvalidCharacterError, here `none`) on characters
outside the alphabet or on a misplaced padding character. -/

/-- Character code of the base64 digit for a sextet 0..63
(A-Z, a-z, 0-9, plus, slash). -/
def b64Char (s : Nat) : Nat :=
  if s < 26 then 65 + s
  else if s < 52 then 71 + s
  else if s < 62 then s - 4
  else if s = 62 then 43
  else 47

/-- Sextet value of a base64 digit character code; `none` when the character
is not in the alphabet (the padding character 61 is not in the alphabet). -/
def b64Val (c : Nat) : Option Nat :=
  if 65 ≤ c ∧ c ≤ 90 then some (c - 65)
  else if 97 ≤ c ∧ c ≤ 122 then some (c - 71)
  else if 48 ≤ c ∧ c ≤ 57 then some (c + 4)
  else if c = 43 then some 62
  else if c = 47 then some 63
  else none

/-- btoa: bytes to base64 character codes, three bytes per four digits,
padding the final group with 61 (the equals sign). -/
def btoaFn : List Nat → List Nat
  | [] => []
  | [a] => [b64Char (a / 4), b64Char (a % 4 * 16), 61, 61]
  | [a, b] => [b64Char (a / 4), b64Char (a % 4 * 16 + b / 16), b64Char (b % 16 * 4), 61]
  | a :: b :: c :: rest =>
    b64Char (a / 4) :: b64Char (a % 4 * 16 + b / 16) ::
      b64Char (b % 16 * 4 + c / 64) :: b64Char (c % 64) :: btoaFn rest

/-- Decode a final group of two base64 digits into one byte. -/
def dec1 (c1 c2 : Nat) : Option (List Nat) :=
  match b64Val c1, b64Val c2 with
  | some v1, some v2 => some [v1 * 4 + v2 / 16]
  | _, _ => none

/-- Decode a final group of three base64 digits into two bytes. -/
def dec2 (c1 c2 c3 : Nat) : Option (List Nat) :=
  match b64Val c1, b64Val c2, b64Val c3 with
  | some v1, some v2, some v3 => some [v1 * 4 + v2 / 16, v2 % 16 * 16 + v3 / 4]
  | _, _, _ => none

/-- Decode a group of four base64 digits into three bytes. -/
def dec3 (c1 c2 c3 c4 : Nat) : Option (List Nat) :=
  match b64Val c1, b64Val c2, b64Val c3, b64Val c4 with
  | some v1, some v2, some v3, some v4 =>
    some [v1 * 4 + v2 / 16, v2 % 16 * 16 + v3 / 4, v3 % 4 * 64 + v4]
  | _, _, _, _ => none

/-- atob: base64 character codes back to bytes.  The final four-digit group
may end in one or two padding characters (code 61); a padding character in
any other position, a character outside the alphabet, or a single leftover
digit makes the whole decode fail. -/
def atobFn : List Nat → Option (List Nat)
  | [] => some []
  | [_] => none
  | [c1, c2] => dec1 c1 c2
  | [c1, c2, c3] => if c3 = 61 then dec1 c1 c2 else dec2 c1 c2 c3
  | c1 :: c2 :: c3 :: c4 :: rest =>
    if rest.isEmpty then
      if c3 = 61 ∧ c4 = 61 then dec1 c1 c2
      else if c4 = 61 then dec2 c1 c2 c3
      else dec3 c1 c2 c3 c4
    else
      match dec3 c1 c2 c3 c4, atobFn rest with
      | some g, some t => some (g ++ t)
      | _, _ => none

theorem b64Val_b64Char : ∀ s, s < 64 → b64Val (b64Char s) = some s := by decide

theorem b64Char_ne_61 : ∀ s, s < 64 → b64Char s ≠ 61 := by decide

theorem btoaFn_ne_nil : ∀ (bs : List Nat), bs ≠ [] → btoaFn bs ≠ []
  | [], h => absurd rfl h
  | [_], _ => by simp [btoaFn]
  | [_, _], _ => by simp [btoaFn]
  | _ :: _ :: _ :: _, _ => by simp [btoaFn]

/-- Round trip: decoding an encoded byte sequence recovers it exactly. -/
theorem atobFn_btoaFn : ∀ (bs : List Nat), (∀ b ∈ bs, b < 256) →
    atobFn (btoaFn bs) = some bs
  | [], _ => rfl
  | [a], h => by
    have ha : a < 256 := h a (by simp)
    have h1 := b64Val_b64Char (a / 4) (by omega)
    have h2 := b64Val_b64Char (a % 4 * 16) (by omega)
    simp [btoaFn, atobFn, dec1, h1, h2]
    omega
  | [a, b], h => by
    have ha : a < 256 := h a (by simp)
    have hb : b < 256 := h b (by simp)
    have h1 := b64Val_b64Char (a / 4) (by omega)
    have h2 := b64Val_b64Char (a % 4 * 16 + b / 16) (by omega)
    have h3 := b64Val_b64Char (b % 16 * 4) (by omega)
    have hne := b64Char_ne_61 (b % 16 * 4) (by omega)
    simp [btoaFn, atobFn, dec2, hne, h1, h2, h3]
    omega
  | a :: b :: c :: rest, h => by
    have ha : a < 256 := h a (by simp)
    have hb : b < 256 := h b (by simp)
    have hc : c < 256 := h c (by simp)
    have h1 := b64Val_b64Char (a / 4) (by omega)
    have h2 := b64Val_b64Char (a % 4 * 16 + b / 16) (by omega)
    have h3 := b64Val_b64Char (b % 16 * 4 + c / 64) (by omega)
    have h4 := b64Val_b64Char (c % 64) (by omega)
    have hg : dec3 (b64Char (a / 4)) (b64Char (a % 4 * 16 + b / 16))
        (b64Char (b % 16 * 4 + c / 64)) (b64Char (c % 64)) = some [a, b, c] := by
      simp [dec3, h1, h2, h3, h4]
      omega
    cases rest with
    | nil =>
      have hne3 := b64Char_ne_61 (b % 16 * 4 + c / 64) (by omega)
      have hne4 := b64Char_ne_61 (c % 64) (by omega)
      simp [btoaFn, atobFn, hne3, hne4, hg]
    | cons r0 rest0 =>
      have ih := atobFn_btoaFn (r0 :: rest0) (fun x hx =>
        h x (List.mem_cons_of_mem _ (List.mem_cons_of_mem _ (List.mem_cons_of_mem _ hx))))
      have hnn : btoaFn (r0 :: rest0) ≠ [] := btoaFn_ne_nil _ (by simp)
      have hie : (btoaFn (r0 :: rest0)).isEmpty = false := by
        cases hbb : btoaFn (r0 :: rest0) with
        | nil => exact absurd hbb hnn
        | cons x xs => rfl
      simp [btoaFn, atobFn, hie, hg, ih]

/-! ## PCM codec (LiveVoice.tsx, createBlob / decode / decodeAudioData)

Samples are rationals.  The JavaScript assignment
`int16[i] = data[i] * 32768` converts with ToInt16: the number is truncated
toward zero and then reduced modulo 2^16 into the signed 16-bit range
(wraparound, no clamping).  The bytes of the Int16Array buffer are the
little-endian unsigned 16-bit representations. -/

/-- Truncation toward zero, as performed by the ToInt16 abstract operation. -/
def jsTrunc (q : ℚ) : ℤ := if 0 ≤ q then ⌊q⌋ else ⌈q⌉

/-- Unsigned 16-bit pattern stored for one sample:
trunc(sample * 32768) reduced modulo 2^16. -/
def sampleToU16 (s : ℚ) : Nat := (jsTrunc (s * 32768) % 65536).toNat

/-- Bytes of the Int16Array buffer built by createBlob (little-endian,
two bytes per sample, in order). -/
def createBlobBytes : List ℚ → List Nat
  | [] => []
  | s :: rest => sampleToU16 s % 256 :: sampleToU16 s / 256 :: createBlobBytes rest

/-- The object returned by createBlob: base64 text plus MIME descriptor. -/
structure EncodedBlob where
  data : List Nat
  mimeType : String
deriving DecidableEq, Repr

/-- createBlob (LiveVoice.tsx lines 125-139): scale each sample by 32768,
store through an Int16Array, read the buffer bytes, base64-encode. -/
def createBlob (data : List ℚ) : EncodedBlob :=
  { data := btoaFn (createBlobBytes data), mimeType := "audio/pcm;rate=16000" }

/-- Every two buffer bytes reinterpreted as a little-endian signed 16-bit
integer, as done by `new Int16Array(data.buffer)`. -/
def bytesToInt16List : List Nat → List ℤ
  | lo :: hi :: rest =>
    (if lo + 256 * hi < 32768 then (lo + 256 * hi : ℤ) else lo + 256 * hi - 65536)
      :: bytesToInt16List rest
  | _ => []

/-- Result of ctx.createBuffer after the fill loops of decodeAudioData. -/
structure AudioBuffer where
  channels : List (List ℚ)
  sampleRate : Nat
  frameCount : Nat
deriving DecidableEq, Repr

/-- Duration in seconds of a Web Audio buffer: frame count over sample rate. -/
def AudioBuffer.duration (b : AudioBuffer) : ℚ := (b.frameCount : ℚ) / (b.sampleRate : ℚ)

/-- decodeAudioData (LiveVoice.tsx lines 150-161).  When the byte length is
odd, the `new Int16Array(data.buffer)` constructor throws a RangeError —
the failure the specification names MalformedAudioError.  Otherwise each
16-bit sample is divided by 32768 and de-interleaved across the channels. -/
def decodeAudioData (data : List Nat) (sampleRate numChannels : Nat) :
    Except String AudioBuffer :=
  if data.length % 2 ≠ 0 then .error "MalformedAudioError"
  else
    let dataInt16 := bytesToInt16List data
    let frameCount := dataInt16.length / numChannels
    .ok { channels := (List.range numChannels).map (fun c =>
            (List.range frameCount).map (fun i =>
              ((dataInt16.getD (i * numChannels + c) 0 : ℤ) : ℚ) / 32768)),
          sampleRate := sampleRate,
          frameCount := frameCount }

theorem sampleToU16_lt (s : ℚ) : sampleToU16 s < 65536 := by
  have h := Int.emod_lt_of_pos (jsTrunc (s * 32768)) (by omega : (0:ℤ) < 65536)
  have h2 := Int.emod_nonneg (jsTrunc (s * 32768)) (by omega : (65536:ℤ) ≠ 0)
  unfold sampleToU16
  omega

theorem createBlobBytes_lt : ∀ (S : List ℚ), ∀ b ∈ createBlobBytes S, b < 256
  | [], _, hb => by simp [createBlobBytes] at hb
  | s :: rest, b, hb => by
    have hu := sampleToU16_lt s
    simp only [createBlobBytes, List.mem_cons] at hb
    rcases hb with h | h | h
    · omega
    · omega
    · exact createBlobBytes_lt rest b h

theorem createBlobBytes_length : ∀ (S : List ℚ),
    (createBlobBytes S).length = 2 * S.length
  | [] => rfl
  | s :: rest => by
    simp [createBlobBytes, createBlobBytes_length rest]
    omega

/-- The signed 16-bit value recovered from the two stored bytes of a sample. -/
def storedInt16 (s : ℚ) : ℤ :=
  if sampleToU16 s < 32768 then (sampleToU16 s : ℤ) else (sampleToU16 s : ℤ) - 65536

theorem bytesToInt16List_createBlobBytes : ∀ (S : List ℚ),
    bytesToInt16List (createBlobBytes S) = S.map storedInt16
  | [] => rfl
  | s :: rest => by
    have hu := sampleToU16_lt s
    have hb : sampleToU16 s % 256 + 256 * (sampleToU16 s / 256) = sampleToU16 s := by
      omega
    have hcast : ((sampleToU16 s % 256 : Nat) : ℤ) + 256 * ((sampleToU16 s / 256 : Nat) : ℤ)
        = (sampleToU16 s : ℤ) := by push_cast; omega
    simp only [createBlobBytes, bytesToInt16List, List.map_cons,
      bytesToInt16List_createBlobBytes rest, hb, hcast, storedInt16]

theorem range_getD_map : ∀ (l : List ℤ),
    (List.range l.length).map (fun i => ((l.getD (i * 1 + 0) 0 : ℤ) : ℚ) / 32768)
      = l.map (fun z => ((z : ℤ) : ℚ) / 32768)
  | [] => rfl
  | a :: l => by
    rw [List.length_cons, List.range_succ_eq_map]
    simp only [List.map_cons, List.map_map]
    refine congrArg₂ _ (by simp) ?_
    rw [← range_getD_map l]
    refine List.map_congr_left (fun i hi => ?_)
    simp [Function.comp]

theorem jsTrunc_bounds (s : ℚ) (h1 : -1 ≤ s) (h2 : s < 1) :
    -32768 ≤ jsTrunc (s * 32768) ∧ jsTrunc (s * 32768) ≤ 32767 := by
  unfold jsTrunc
  split
  case isTrue h =>
    have hnn : (0:ℤ) ≤ ⌊s * 32768⌋ := Int.floor_nonneg.mpr h
    have hlt : ⌊s * 32768⌋ < 32768 := by
      rw [Int.floor_lt]
      push_cast
      nlinarith
    omega
  case isFalse h =>
    push_neg at h
    have hx : (-32768 : ℚ) ≤ s * 32768 := by nlinarith
    have hge : (-32768 : ℤ) ≤ ⌈s * 32768⌉ := by
      have hc := Int.le_ceil (s * 32768)
      exact_mod_cast hx.trans hc
    have hle : ⌈s * 32768⌉ ≤ 0 := Int.ceil_le.mpr (by push_cast; linarith)
    omega

theorem jsTrunc_close (q : ℚ) : |((jsTrunc q : ℤ) : ℚ) - q| ≤ 1 := by
  unfold jsTrunc
  split
  · rw [abs_le]
    constructor
    · have := Int.lt_floor_add_one q
      linarith
    · have := Int.floor_le q
      linarith
  · rw [abs_le]
    constructor
    · have := Int.le_ceil q
      linarith
    · have := Int.ceil_lt_add_one q
      linarith

/-- On samples in [-1, 1) the 16-bit pattern does not wrap: the stored
signed value is exactly the truncation of sample * 32768. -/
theorem storedInt16_eq (s : ℚ) (h1 : -1 ≤ s) (h2 : s < 1) :
    storedInt16 s = jsTrunc (s * 32768) := by
  obtain ⟨hl, hr⟩ := jsTrunc_bounds s h1 h2
  unfold storedInt16 sampleToU16
  omega

theorem storedInt16_roundtrip (s : ℚ) (h1 : -1 ≤ s) (h2 : s < 1) :
    |((storedInt16 s : ℤ) : ℚ) / 32768 - s| ≤ 1 / 32768 := by
  rw [storedInt16_eq s h1 h2]
  have h := jsTrunc_close (s * 32768)
  have heq : ((jsTrunc (s * 32768) : ℤ) : ℚ) / 32768 - s
      = (((jsTrunc (s * 32768) : ℤ) : ℚ) - s * 32768) / 32768 := by ring
  rw [heq, abs_div]
  have habs : |(32768 : ℚ)| = 32768 := by norm_num
  rw [habs]
  linarith

/-! ## Playback Scheduler (LiveVoice.tsx lines 74-81)

On each audio message the handler runs, with the shared cursor
nextStartTimeRef:
  nextStart := max nextStart currentTime;
  source.start nextStart;
  nextStart := nextStart + buffer.duration.
The algorithm is stated over the sequence of segments a session schedules,
each paired with the output clock reading taken when its message is
handled. -/

/-- Start times assigned to a sequence of segments.  Each list entry is
(output clock reading at schedule time, segment duration). -/
def scheduleSegments (nextStart : ℚ) : List (ℚ × ℚ) → List ℚ
  | [] => []
  | (clock, d) :: rest =>
    max nextStart clock :: scheduleSegments (max nextStart clock + d) rest

/-- Snapshots of the cursor: entry i is the cursor value before segment i
is handled, with one final entry for the cursor after the last segment. -/
def cursorTrace (nextStart : ℚ) : List (ℚ × ℚ) → List ℚ
  | [] => [nextStart]
  | (clock, d) :: rest => nextStart :: cursorTrace (max nextStart clock + d) rest

theorem scheduleSegments_length (c0 : ℚ) : ∀ (segs : List (ℚ × ℚ)),
    (scheduleSegments c0 segs).length = segs.length
  | [] => rfl
  | (c, d) :: rest => by
    simp [scheduleSegments, scheduleSegments_length _ rest]

/-- Adjacent start times: each is exactly the maximum of the previous end
and the clock reading at its own schedule time. -/
theorem scheduleSegments_succ : ∀ (segs : List (ℚ × ℚ)) (c0 : ℚ) (i : Nat),
    i + 1 < segs.length →
    (scheduleSegments c0 segs).getD (i + 1) 0 =
      max ((scheduleSegments c0 segs).getD i 0 + (segs.getD i (0, 0)).2)
        ((segs.getD (i + 1) (0, 0)).1)
  | [], _, i, hi => by simp at hi
  | (c, d) :: rest, c0, 0, hi => by
    match rest, hi with
    | (c1, d1) :: rest1, _ => simp [scheduleSegments]
  | (c, d) :: rest, c0, i + 1, hi => by
    have ih := scheduleSegments_succ rest (max c0 c + d) i (by simpa using hi)
    simpa [scheduleSegments] using ih

/-- First start time. -/
theorem scheduleSegments_zero (segs : List (ℚ × ℚ)) (c0 : ℚ) (h : 0 < segs.length) :
    (scheduleSegments c0 segs).getD 0 0 = max c0 ((segs.getD 0 (0, 0)).1) := by
  match segs with
  | (c, d) :: rest => simp [scheduleSegments]

/-! ## Inbound message handling (LiveVoice.tsx lines 65-83)

A message may carry a transcript fragment and/or a base64 audio payload.
The transcript is appended first; then, when an audio payload is present
(a non-empty string, by JavaScript truthiness), the cursor is advanced to
max(cursor, currentTime), the payload is decoded, and on success the
segment is scheduled at the cursor, which then advances by the duration.
When atob or the Int16Array construction throws, the async handler stops
there: the rejection is logged by the host, the session stays alive, and
the already-performed transcript append and cursor max remain. -/

/-- State touched by the message handler: the cursor, the list of
(startTime, duration) pairs passed to source.start so far, and the
accumulated transcription. -/
structure SessionAudioState where
  nextStartTime : ℚ
  scheduled : List (ℚ × ℚ)
  transcription : String
deriving DecidableEq, Repr

/-- The two optional parts of a server message. -/
structure ServerMsg where
  outputTranscriptionText : Option String
  inlineAudioData : Option (List Nat)
deriving DecidableEq, Repr

/-- The onmessage handler, with the output clock reading passed in. -/
def processMessage (st : SessionAudioState) (currentTime : ℚ) (msg : ServerMsg) :
    SessionAudioState :=
  let st1 :=
    match msg.outputTranscriptionText with
    | some t => if t = "" then st else { st with transcription := st.transcription ++ t }
    | none => st
  match msg.inlineAudioData with
  | some b64 =>
    if b64 = [] then st1
    else
      let ns := max st1.nextStartTime currentTime
      match atobFn b64 with
      | none => { st1 with nextStartTime := ns }
      | some bytes =>
        match decodeAudioData bytes 24000 1 with
        | .error _ => { st1 with nextStartTime := ns }
        | .ok buf =>
          { st1 with nextStartTime := ns + buf.duration,
                     scheduled := st1.scheduled ++ [(ns, buf.duration)] }
  | none => st1

/-! ## connect (LiveVoice.tsx lines 18-110)

connect resolves the API key from the Vite environment or a window global
with JavaScript OR (an empty string is falsy), and when the result is empty
it logs, sets the status, sets active to false and returns — before the
client object, the audio contexts, the microphone request, or the live
connection are created.  The synchronous actions are recorded as a trace. -/

inductive Action where
  | setStatus (s : String)
  | setActive (b : Bool)
  | logMissingKey
  | createClient
  | createAudioContexts
  | acquireMic
  | openLiveConnection
deriving DecidableEq, Repr

/-- apiKey resolution: viteKey falsy falls through to windowKey, then to the
empty string. -/
def truthyOr (a : Option String) (d : String) : String :=
  match a with
  | some s => if s = "" then d else s
  | none => d

def resolveApiKey (viteKey windowKey : Option String) : String :=
  truthyOr viteKey (truthyOr windowKey "")

structure ConnectOutcome where
  status : String
  active : Bool
  actions : List Action
deriving DecidableEq, Repr

/-- The connect function up to its first suspension point.  With an empty
key it returns after reporting the failure; otherwise it proceeds to
allocate the client, the audio contexts, the microphone and the live
connection (status then stays at Connecting until the onopen callback). -/
def connect (apiKey : String) : ConnectOutcome :=
  if apiKey = "" then
    { status := "Missing API key", active := false,
      actions := [.setStatus "Connecting...", .logMissingKey,
                  .setStatus "Missing API key", .setActive false] }
  else
    { status := "Connecting...", active := false,
      actions := [.setStatus "Connecting...", .createClient,
                  .createAudioContexts, .acquireMic, .openLiveConnection] }

/-! ## disconnect (LiveVoice.tsx lines 112-122)

disconnect stops every track of the media stream ref if it is set, closes
the audio context ref if it is set, clears the UI state, and then calls
window.location.reload().  The reload remounts the component, so both refs
return to their initial null state and the UI state to its initial values:
that is the state in which a closed session ends up.  Neither guarded call
can run on a second invocation after that, and neither track.stop nor a
skipped close can raise. -/

structure LiveState where
  mediaStreamTracks : Option Nat
  audioContext : Option Unit
  active : Bool
  status : String
deriving DecidableEq, Repr

/-- What one disconnect call actually released. -/
structure DisconnectEffects where
  tracksStopped : Nat
  closeCalled : Bool
deriving DecidableEq, Repr

/-- Initial component state (all refs null), restored by the reload. -/
def initialLiveState : LiveState :=
  { mediaStreamTracks := none, audioContext := none,
    active := false, status := "Ready to connect" }

def disconnect (st : LiveState) : LiveState × DisconnectEffects :=
  let stops := match st.mediaStreamTracks with
    | some n => n
    | none => 0
  let closed := st.audioContext.isSome
  (initialLiveState, { tracksStopped := stops, closeCalled := closed })

end LiveVoice

namespace GeminiService

/-! ## gemini.ts: pcmToWav and withRetry -/

/-- writeString (gemini.ts lines 9-13): the character codes of an ASCII
string placed at consecutive offsets of the header. -/
def writeString (s : String) : List Nat := s.toList.map Char.toNat

/-- Little-endian bytes written by DataView.setUint16. -/
def u16le (n : Nat) : List Nat := [n % 256, n / 256 % 256]

/-- Little-endian bytes written by DataView.setUint32. -/
def u32le (n : Nat) : List Nat :=
  [n % 256, n / 256 % 256, n / 65536 % 256, n / 16777216 % 256]

/-- The 44-byte header assembled by pcmToWav (gemini.ts lines 39-67), field
by field in offset order: RIFF, file length, WAVE, fmt chunk, PCM format,
one channel, sample rate, byte rate, block align, 16 bits, data chunk. -/
def wavHeader (sampleRate pcmLen : Nat) : List Nat :=
  writeString "RIFF" ++ u32le (36 + pcmLen) ++ writeString "WAVE" ++
    writeString "fmt " ++ u32le 16 ++ u16le 1 ++ u16le 1 ++
    u32le sampleRate ++ u32le (sampleRate * 2) ++ u16le 2 ++ u16le 16 ++
    writeString "data" ++ u32le pcmLen

/-- Byte-level core of pcmToWav: header followed by the PCM bytes. -/
def pcmToWavBytes (pcm : List Nat) (sampleRate : Nat) : List Nat :=
  wavHeader sampleRate pcm.length ++ pcm

/-- pcmToWav (gemini.ts lines 36-90): atob the input, build the header,
concatenate, btoa the result.  atob failure on invalid base64 propagates. -/
def pcmToWav (pcmBase64 : List Nat) (sampleRate : Nat) : Option (List Nat) :=
  (LiveVoice.atobFn pcmBase64).map (fun pcm => LiveVoice.btoaFn (pcmToWavBytes pcm sampleRate))

/-- The error shape tested by withRetry: optional HTTP status, optional
message. -/
structure JsError where
  status : Option Nat
  message : Option String
deriving DecidableEq, Repr

/-- Whether the first character sequence occurs at the start of the second. -/
def startsWithSeq : List Char → List Char → Bool
  | [], _ => true
  | _ :: _, [] => false
  | a :: as, b :: bs => a = b && startsWithSeq as bs

/-- Whether the first character sequence occurs anywhere in the second
(String.prototype.includes). -/
def containsSeq (needle : List Char) : List Char → Bool
  | [] => needle.isEmpty
  | c :: rest => startsWithSeq needle (c :: rest) || containsSeq needle rest

/-- gemini.ts line 22: retry on status 503, 500 or 429, or on a message
containing the word unavailable. -/
def shouldRetry (e : JsError) : Bool :=
  e.status = some 503 || e.status = some 500 || e.status = some 429 ||
    (match e.message with
     | some m => containsSeq ("unavailable".toList) m.toList
     | none => false)

/-- Value of a little-endian 16-bit field at a byte offset. -/
def readU16le (bs : List Nat) (off : Nat) : Nat :=
  bs.getD off 0 + 256 * bs.getD (off + 1) 0

/-- Value of a little-endian 32-bit field at a byte offset. -/
def readU32le (bs : List Nat) (off : Nat) : Nat :=
  bs.getD off 0 + 256 * bs.getD (off + 1) 0 + 65536 * bs.getD (off + 2) 0
    + 16777216 * bs.getD (off + 3) 0

theorem writeString_RIFF : writeString "RIFF" = [82, 73, 70, 70] := by decide

theorem writeString_WAVE : writeString "WAVE" = [87, 65, 86, 69] := by decide

theorem writeString_fmt : writeString "fmt " = [102, 109, 116, 32] := by decide

theorem writeString_data : writeString "data" = [100, 97, 116, 97] := by decide

/-- The header spelled out byte by byte. -/
theorem wavHeader_eq (r L : Nat) : wavHeader r L =
    [82, 73, 70, 70,
     (36 + L) % 256, (36 + L) / 256 % 256, (36 + L) / 65536 % 256, (36 + L) / 16777216 % 256,
     87, 65, 86, 69,
     102, 109, 116, 32,
     16, 0, 0, 0,
     1, 0,
     1, 0,
     r % 256, r / 256 % 256, r / 65536 % 256, r / 16777216 % 256,
     r * 2 % 256, r * 2 / 256 % 256, r * 2 / 65536 % 256, r * 2 / 16777216 % 256,
     2, 0,
     16, 0,
     100, 97, 116, 97,
     L % 256, L / 256 % 256, L / 65536 % 256, L / 16777216 % 256] := by
  simp [wavHeader, u32le, u16le, writeString_RIFF, writeString_WAVE,
    writeString_fmt, writeString_data]

theorem wavHeader_lt (r L : Nat) : ∀ b ∈ wavHeader r L, b < 256 := by
  intro b hb
  rw [wavHeader_eq] at hb
  simp only [List.mem_cons, List.not_mem_nil, or_false] at hb
  omega

/-- withRetry (gemini.ts lines 18-30), with the wrapped operation modelled
as the sequence of outcomes of its successive invocations (fn k is the
result of call number k).  Returns the list of delays slept before each
retry together with the final outcome; the number of calls made is one more
than the number of delays. -/
def withRetry (fn : Nat → Except JsError α) : Nat → Nat → Nat → List Nat × Except JsError α
  | 0, _, k =>
    match fn k with
    | .ok v => ([], .ok v)
    | .error e => ([], .error e)
  | retries + 1, delay, k =>
    match fn k with
    | .ok v => ([], .ok v)
    | .error e =>
      if shouldRetry e then
        let r := withRetry fn retries (delay * 2) (k + 1)
        (delay :: r.1, r.2)
      else ([], .error e)

end GeminiService

namespace GeminiService

/-- C9: for every raw PCM byte sequence and sample rate (with the length
and rate fields in 32-bit range), pcmToWav emits base64 that decodes to
exactly 44 + L bytes: a 44-byte RIFF/WAVE header declaring PCM, one
channel, 16 bits per sample, the given sample rate, data-chunk length L and
file-length field 36 + L, followed by the original PCM bytes unchanged. -/
theorem pcmToWav_header_and_payload (pcm : List Nat) (rate : Nat)
    (hb : ∀ b ∈ pcm, b < 256) (hlen : 36 + pcm.length < 4294967296)
    (hrate : rate < 4294967296) :
    pcmToWav (LiveVoice.btoaFn pcm) rate
        = some (LiveVoice.btoaFn (pcmToWavBytes pcm rate))
    ∧ LiveVoice.atobFn (LiveVoice.btoaFn (pcmToWavBytes pcm rate))
        = some (pcmToWavBytes pcm rate)
    ∧ (pcmToWavBytes pcm rate).length = 44 + pcm.length
    ∧ (pcmToWavBytes pcm rate).take 4 = writeString "RIFF"
    ∧ readU32le (pcmToWavBytes pcm rate) 4 = 36 + pcm.length
    ∧ ((pcmToWavBytes pcm rate).drop 8).take 4 = writeString "WAVE"
    ∧ readU16le (pcmToWavBytes pcm rate) 20 = 1
    ∧ readU16le (pcmToWavBytes pcm rate) 22 = 1
    ∧ readU32le (pcmToWavBytes pcm rate) 24 = rate
    ∧ readU16le (pcmToWavBytes pcm rate) 34 = 16
    ∧ ((pcmToWavBytes pcm rate).drop 36).take 4 = writeString "data"
    ∧ readU32le (pcmToWavBytes pcm rate) 40 = pcm.length
    ∧ (pcmToWavBytes pcm rate).drop 44 = pcm := by
  have hall : ∀ b ∈ pcmToWavBytes pcm rate, b < 256 := by
    intro b hbm
    rcases List.mem_append.mp hbm with h | h
    · exact wavHeader_lt _ _ b h
    · exact hb b h
  refine ⟨?_, LiveVoice.atobFn_btoaFn _ hall, ?_, ?_, ?_, ?_, ?_, ?_, ?_, ?_, ?_, ?_, ?_⟩
  · unfold pcmToWav
    rw [LiveVoice.atobFn_btoaFn pcm hb]
    rfl
  · simp [pcmToWavBytes, wavHeader_eq]
    omega
  · simp [pcmToWavBytes, wavHeader_eq, writeString_RIFF]
  · simp [pcmToWavBytes, wavHeader_eq, readU32le]
    omega
  · simp [pcmToWavBytes, wavHeader_eq, writeString_WAVE]
  · simp [pcmToWavBytes, wavHeader_eq, readU16le]
  · simp [pcmToWavBytes, wavHeader_eq, readU16le]
  · simp [pcmToWavBytes, wavHeader_eq, readU32le]
    omega
  · simp [pcmToWavBytes, wavHeader_eq, readU16le]
  · simp [pcmToWavBytes, wavHeader_eq, writeString_data]
  · simp [pcmToWavBytes, wavHeader_eq, readU32le]
    omega
  · simp [pcmToWavBytes, wavHeader_eq]

/-- Reduction of withRetry on a retryable failure with retries left. -/
theorem withRetry_succ_retry {α : Type} (fn : Nat → Except JsError α) (n delay k : Nat)
    (e : JsError) (hfk : fn k = Except.error e) (hsr : shouldRetry e = true) :
    withRetry fn (n + 1) delay k
      = (delay :: (withRetry fn n (delay * 2) (k + 1)).1,
         (withRetry fn n (delay * 2) (k + 1)).2) := by
  simp [withRetry, hfk, hsr]

/-- Full characterisation of withRetry: the number of delays is bounded by
the retry budget, the delays double from the initial delay, the final
outcome is the outcome of the last call made, every non-final call failed
with a retryable error, and a final error means the error was not
retryable or the budget is exhausted. -/
theorem withRetry_spec {α : Type} (fn : Nat → Except JsError α) :
    ∀ (retries delay k : Nat) (ds : List Nat) (res : Except JsError α),
    withRetry fn retries delay k = (ds, res) →
    ds.length ≤ retries
    ∧ ds = (List.range ds.length).map (fun i => delay * 2 ^ i)
    ∧ res = fn (k + ds.length)
    ∧ (∀ j, j < ds.length → ∃ e, fn (k + j) = Except.error e ∧ shouldRetry e = true)
    ∧ (∀ e, res = Except.error e → shouldRetry e = false ∨ ds.length = retries) := by
  intro retries
  induction retries with
  | zero =>
    intro delay k ds res h
    cases hfk : fn k with
    | ok v =>
      rw [withRetry, hfk] at h
      injection h with h1 h2
      subst h1
      subst h2
      exact ⟨by simp, by simp, by simp [hfk], by simp, by simp⟩
    | error e =>
      rw [withRetry, hfk] at h
      injection h with h1 h2
      subst h1
      subst h2
      exact ⟨by simp, by simp, by simp [hfk], by simp, fun e' he' => Or.inr (by simp)⟩
  | succ n ih =>
    intro delay k ds res h
    cases hfk : fn k with
    | ok v =>
      rw [withRetry, hfk] at h
      injection h with h1 h2
      subst h1
      subst h2
      exact ⟨by simp, by simp, by simp [hfk], by simp, by simp⟩
    | error e =>
      cases hsr : shouldRetry e with
      | false =>
        rw [withRetry, hfk] at h
        simp only [hsr, Bool.false_eq_true, if_false] at h
        injection h with h1 h2
        subst h1
        subst h2
        refine ⟨by simp, by simp, by simp [hfk], by simp, fun e' he' => ?_⟩
        injection he' with h3
        subst h3
        exact Or.inl hsr
      | true =>
        rw [withRetry_succ_retry fn n delay k e hfk hsr] at h
        injection h with h1 h2
        subst h1
        subst h2
        obtain ⟨ih1, ih2, ih3, ih4, ih5⟩ :=
          ih (delay * 2) (k + 1) (withRetry fn n (delay * 2) (k + 1)).1
            (withRetry fn n (delay * 2) (k + 1)).2 rfl
        refine ⟨?_, ?_, ?_, ?_, ?_⟩
        · simp
          omega
        · simp only [List.length_cons]
          rw [List.range_succ_eq_map, List.map_cons, List.map_map]
          refine congrArg₂ _ (by simp) ?_
          conv_lhs => rw [ih2]
          exact List.map_congr_left fun i _ => by
            simp [Function.comp, pow_succ]
            ring
        · simp only [List.length_cons]
          exact ih3.trans (congrArg fn (by omega))
        · intro j hj
          cases j with
          | zero => exact ⟨e, by simpa using hfk, hsr⟩
          | succ m =>
            have hm : m < (withRetry fn n (delay * 2) (k + 1)).1.length := by
              simpa using hj
            obtain ⟨e', he', hsr'⟩ := ih4 m hm
            refine ⟨e', ?_, hsr'⟩
            rw [show k + (m + 1) = k + 1 + m by omega]
            exact he'
        · intro e' he'
          rcases ih5 e' he' with hcase | hcase
          · exact Or.inl hcase
          · right
            simp [hcase]

/-- C10: with the default budget (3 retries) and initial delay (1000 ms),
withRetry makes at most four calls; the delays slept are a prefix of
1000, 2000, 4000 ms (doubling); every retried call failed with status 503,
500 or 429 or a message containing unavailable; the final outcome is the
outcome of the last call, so any error is propagated unchanged, and a final
error means it was not retryable or the budget was exhausted. -/
theorem withRetry_retries_and_propagates {α : Type} (fn : Nat → Except JsError α)
    (ds : List Nat) (res : Except JsError α)
    (h : withRetry fn 3 1000 0 = (ds, res)) :
    ds.length + 1 ≤ 4
    ∧ ds = List.take ds.length [1000, 2000, 4000]
    ∧ res = fn ds.length
    ∧ (∀ j, j < ds.length → ∃ e, fn j = Except.error e ∧ shouldRetry e = true)
    ∧ (∀ e, res = Except.error e → shouldRetry e = false ∨ ds.length = 3) := by
  obtain ⟨h1, h2, h3, h4, h5⟩ := withRetry_spec fn 3 1000 0 ds res h
  have htake : ∀ m, m ≤ 3 →
      (List.range m).map (fun i => 1000 * 2 ^ i) = List.take m [1000, 2000, 4000] := by
    decide
  refine ⟨by omega, ?_, by simpa using h3, fun j hj => by simpa using h4 j hj, h5⟩
  conv_lhs => rw [h2]
  exact htake ds.length h1

/-- Witness for C10: an operation that always fails with status 503 is
called four times with delays 1000, 2000, 4000 and its error is
propagated. -/
theorem withRetry_retries_and_propagates_witness :
    ([1000, 2000, 4000] : List Nat).length + 1 ≤ 4
    ∧ ([1000, 2000, 4000] : List Nat)
        = List.take ([1000, 2000, 4000] : List Nat).length [1000, 2000, 4000]
    ∧ (Except.error { status := some 503, message := none } : Except JsError Unit)
        = (fun _ => (Except.error { status := some 503, message := none } : Except JsError Unit))
            ([1000, 2000, 4000] : List Nat).length
    ∧ (∀ j, j < ([1000, 2000, 4000] : List Nat).length →
        ∃ e, (fun _ => (Except.error { status := some 503, message := none } :
                Except JsError Unit)) j
            = Except.error e ∧ shouldRetry e = true)
    ∧ (∀ e, (Except.error { status := some 503, message := none } : Except JsError Unit)
          = Except.error e →
        shouldRetry e = false ∨ ([1000, 2000, 4000] : List Nat).length = 3) :=
  withRetry_retries_and_propagates
    (fun _ => (Except.error { status := some 503, message := none } : Except JsError Unit))
    [1000, 2000, 4000] (Except.error { status := some 503, message := none }) rfl

/-- Witness for C9 at the one-byte PCM payload [7] and rate 24000. -/
theorem pcmToWav_header_and_payload_witness :
    pcmToWav (LiveVoice.btoaFn [7]) 24000
        = some (LiveVoice.btoaFn (pcmToWavBytes [7] 24000))
    ∧ LiveVoice.atobFn (LiveVoice.btoaFn (pcmToWavBytes [7] 24000))
        = some (pcmToWavBytes [7] 24000)
    ∧ (pcmToWavBytes [7] 24000).length = 44 + ([7] : List Nat).length
    ∧ (pcmToWavBytes [7] 24000).take 4 = writeString "RIFF"
    ∧ readU32le (pcmToWavBytes [7] 24000) 4 = 36 + ([7] : List Nat).length
    ∧ ((pcmToWavBytes [7] 24000).drop 8).take 4 = writeString "WAVE"
    ∧ readU16le (pcmToWavBytes [7] 24000) 20 = 1
    ∧ readU16le (pcmToWavBytes [7] 24000) 22 = 1
    ∧ readU32le (pcmToWavBytes [7] 24000) 24 = 24000
    ∧ readU16le (pcmToWavBytes [7] 24000) 34 = 16
    ∧ ((pcmToWavBytes [7] 24000).drop 36).take 4 = writeString "data"
    ∧ readU32le (pcmToWavBytes [7] 24000) 40 = ([7] : List Nat).length
    ∧ (pcmToWavBytes [7] 24000).drop 44 = [7] :=
  pcmToWav_header_and_payload [7] 24000 (by decide) (by decide) (by decide)

end GeminiService

namespace LiveVoice

/-! ## Claim theorems -/

/-- C1: for every sequence of decoded segments with non-negative durations
handed to the scheduler in arrival order, the start times it computes are
non-decreasing, each start is at least the previous start plus the previous
duration (no overlap), and each start is at most the maximum of that
previous end and the output clock reading when the segment is scheduled
(no unnecessary gap). -/
theorem scheduler_no_overlap_no_gap (segs : List (ℚ × ℚ)) (c0 : ℚ)
    (hd : ∀ p ∈ segs, 0 ≤ p.2) (i : Nat) (hi : i + 1 < segs.length) :
    (scheduleSegments c0 segs).getD i 0 + (segs.getD i (0, 0)).2
        ≤ (scheduleSegments c0 segs).getD (i + 1) 0
    ∧ (scheduleSegments c0 segs).getD (i + 1) 0
        ≤ max ((scheduleSegments c0 segs).getD i 0 + (segs.getD i (0, 0)).2)
            ((segs.getD (i + 1) (0, 0)).1)
    ∧ (scheduleSegments c0 segs).getD i 0 ≤ (scheduleSegments c0 segs).getD (i + 1) 0 := by
  have h := scheduleSegments_succ segs c0 i hi
  have hmem : segs.getD i (0, 0) ∈ segs := by
    rw [List.getD_eq_getElem _ _ (by omega)]
    exact List.getElem_mem _
  have hdur : 0 ≤ (segs.getD i (0, 0)).2 := hd _ hmem
  refine ⟨?_, ?_, ?_⟩
  · rw [h]
    exact le_max_left _ _
  · rw [h]
  · rw [h]
    have : (scheduleSegments c0 segs).getD i 0
        ≤ (scheduleSegments c0 segs).getD i 0 + (segs.getD i (0, 0)).2 := by linarith
    exact this.trans (le_max_left _ _)

/-- Witness for C1 at the concrete two-segment input
[(clock 0, duration 1), (clock 0, duration 2)] with initial cursor 0. -/
theorem scheduler_no_overlap_no_gap_witness :
    (scheduleSegments 0 [((0:ℚ), (1:ℚ)), (0, 2)]).getD 0 0
        + (([((0:ℚ), (1:ℚ)), (0, 2)]).getD 0 (0, 0)).2
        ≤ (scheduleSegments 0 [((0:ℚ), (1:ℚ)), (0, 2)]).getD 1 0
    ∧ (scheduleSegments 0 [((0:ℚ), (1:ℚ)), (0, 2)]).getD 1 0
        ≤ max ((scheduleSegments 0 [((0:ℚ), (1:ℚ)), (0, 2)]).getD 0 0
            + (([((0:ℚ), (1:ℚ)), (0, 2)]).getD 0 (0, 0)).2)
            ((([((0:ℚ), (1:ℚ)), (0, 2)]).getD 1 (0, 0)).1)
    ∧ (scheduleSegments 0 [((0:ℚ), (1:ℚ)), (0, 2)]).getD 0 0
        ≤ (scheduleSegments 0 [((0:ℚ), (1:ℚ)), (0, 2)]).getD 1 0 :=
  scheduler_no_overlap_no_gap [((0:ℚ), (1:ℚ)), (0, 2)] 0
    (by intro p hp; simp at hp; rcases hp with h | h <;> subst h <;> norm_num) 0 (by norm_num)

/-- Head of the cursor trace is the incoming cursor. -/
theorem cursorTrace_head (c0 : ℚ) : ∀ (segs : List (ℚ × ℚ)),
    (cursorTrace c0 segs).getD 0 0 = c0
  | [] => rfl
  | (_, _) :: _ => rfl

/-- C2: the session cursor is monotonically non-decreasing across the whole
session (every snapshot is at most the next), each start time equals
max(cursor, clock) — the cursor value after absorbing the scheduling delay —
and is therefore at least the output clock reading at the moment the
segment is scheduled. -/
theorem cursor_monotone_start_not_past (segs : List (ℚ × ℚ)) (c0 : ℚ)
    (hd : ∀ p ∈ segs, 0 ≤ p.2) :
    (∀ i, i + 1 < (cursorTrace c0 segs).length →
        (cursorTrace c0 segs).getD i 0 ≤ (cursorTrace c0 segs).getD (i + 1) 0)
    ∧ (∀ i, i < segs.length →
        (scheduleSegments c0 segs).getD i 0
          = max ((cursorTrace c0 segs).getD i 0) ((segs.getD i (0, 0)).1))
    ∧ (∀ i, i < segs.length →
        (segs.getD i (0, 0)).1 ≤ (scheduleSegments c0 segs).getD i 0) := by
  induction segs generalizing c0 with
  | nil =>
    refine ⟨fun i hi => ?_, fun i hi => ?_, fun i hi => ?_⟩
    · simp [cursorTrace] at hi
    · simp at hi
    · simp at hi
  | cons p rest ih =>
    obtain ⟨c, d⟩ := p
    have hd0 : 0 ≤ d := by
      have := hd (c, d) (by simp)
      simpa using this
    obtain ⟨ih1, ih2, ih3⟩ := ih (max c0 c + d) (fun q hq => hd q (List.mem_cons_of_mem _ hq))
    refine ⟨fun i hi => ?_, fun i hi => ?_, fun i hi => ?_⟩
    · cases i with
      | zero =>
        simp only [cursorTrace, List.getD_cons_zero, List.getD_cons_succ]
        rw [cursorTrace_head]
        have : c0 ≤ max c0 c := le_max_left _ _
        linarith
      | succ j =>
        have hj : j + 1 < (cursorTrace (max c0 c + d) rest).length := by
          simpa [cursorTrace] using hi
        simpa [cursorTrace] using ih1 j hj
    · cases i with
      | zero =>
        simp [scheduleSegments, cursorTrace]
      | succ j =>
        have hj : j < rest.length := by simpa using hi
        simpa [scheduleSegments, cursorTrace] using ih2 j hj
    · cases i with
      | zero =>
        simp only [scheduleSegments, List.getD_cons_zero]
        exact le_max_right _ _
      | succ j =>
        have hj : j < rest.length := by simpa using hi
        simpa [scheduleSegments] using ih3 j hj

/-- Witness for C2 at the concrete one-segment input
[(clock 5, duration 1)] with initial cursor 0. -/
theorem cursor_monotone_start_not_past_witness :
    (∀ i, i + 1 < (cursorTrace 0 [((5:ℚ), (1:ℚ))]).length →
        (cursorTrace 0 [((5:ℚ), (1:ℚ))]).getD i 0
          ≤ (cursorTrace 0 [((5:ℚ), (1:ℚ))]).getD (i + 1) 0)
    ∧ (∀ i, i < ([((5:ℚ), (1:ℚ))]).length →
        (scheduleSegments 0 [((5:ℚ), (1:ℚ))]).getD i 0
          = max ((cursorTrace 0 [((5:ℚ), (1:ℚ))]).getD i 0)
              ((([((5:ℚ), (1:ℚ))]).getD i (0, 0)).1))
    ∧ (∀ i, i < ([((5:ℚ), (1:ℚ))]).length →
        (([((5:ℚ), (1:ℚ))]).getD i (0, 0)).1
          ≤ (scheduleSegments 0 [((5:ℚ), (1:ℚ))]).getD i 0) :=
  cursor_monotone_start_not_past [((5:ℚ), (1:ℚ))] 0
    (by intro p hp; simp at hp; subst hp; norm_num)

/-- C3 counterexample: at the sample value 1.0 (inside the range [-1, 1]
named by the claim) the encoder computes 1.0 * 32768 = 32768, which wraps
to -32768 in the Int16Array, so the decoded sample is -1 and the
reconstruction error is 2, far above the 16-bit quantization error. -/
theorem roundtrip_fails_at_one :
    atobFn (createBlob [(1:ℚ)]).data = some (createBlobBytes [(1:ℚ)])
    ∧ createBlobBytes [(1:ℚ)] = [0, 128]
    ∧ decodeAudioData [0, 128] 24000 1
        = Except.ok { channels := [[(-1 : ℚ)]], sampleRate := 24000, frameCount := 1 }
    ∧ ¬ |(-1 : ℚ) - 1| ≤ 1 / 32768 := by
  have h1 : createBlobBytes [(1:ℚ)] = [0, 128] := by
    norm_num [createBlobBytes, sampleToU16, jsTrunc]
    decide
  refine ⟨?_, h1, ?_, by norm_num⟩
  · show atobFn (btoaFn (createBlobBytes [(1:ℚ)])) = _
    exact atobFn_btoaFn _ (createBlobBytes_lt _)
  · norm_num [decodeAudioData, bytesToInt16List, List.range_succ]

/-- C3 (amended): for every sample array with entries in [-1, 1) — strictly
below 1, since at exactly 1 the deliberate no-clamping wraparound flips the
sign — decoding the encoded chunk reconstructs an array of the same length
whose entries differ from the originals by at most 1/32768. -/
theorem decodeChunk_encodeFrame_roundtrip (S : List ℚ) (hS : ∀ s ∈ S, -1 ≤ s ∧ s < 1) :
    atobFn (createBlob S).data = some (createBlobBytes S)
    ∧ decodeAudioData (createBlobBytes S) 24000 1 =
        Except.ok { channels := [S.map (fun s => ((storedInt16 s : ℤ) : ℚ) / 32768)],
                    sampleRate := 24000, frameCount := S.length }
    ∧ (S.map (fun s => ((storedInt16 s : ℤ) : ℚ) / 32768)).length = S.length
    ∧ ∀ i, i < S.length →
        |(S.map (fun s => ((storedInt16 s : ℤ) : ℚ) / 32768)).getD i 0 - S.getD i 0|
          ≤ 1 / 32768 := by
  refine ⟨?_, ?_, by simp, ?_⟩
  · show atobFn (btoaFn (createBlobBytes S)) = _
    exact atobFn_btoaFn _ (createBlobBytes_lt S)
  · unfold decodeAudioData
    rw [if_neg (by rw [createBlobBytes_length]; omega)]
    rw [bytesToInt16List_createBlobBytes]
    simp only [Nat.div_one]
    rw [show List.range 1 = [0] from rfl]
    simp only [List.map_cons, List.map_nil]
    rw [range_getD_map (S.map storedInt16)]
    simp [List.map_map, Function.comp]
  · intro i hi
    rw [List.getD_eq_getElem _ _ (by simpa using hi), List.getElem_map,
      List.getD_eq_getElem _ _ hi]
    have hmem : S[i] ∈ S := List.getElem_mem _
    exact storedInt16_roundtrip _ (hS _ hmem).1 (hS _ hmem).2

/-- Witness for the amended C3 at the one-sample array [0]. -/
theorem decodeChunk_encodeFrame_roundtrip_witness :
    atobFn (createBlob [(0:ℚ)]).data = some (createBlobBytes [(0:ℚ)])
    ∧ decodeAudioData (createBlobBytes [(0:ℚ)]) 24000 1 =
        Except.ok { channels := [([(0:ℚ)]).map (fun s => ((storedInt16 s : ℤ) : ℚ) / 32768)],
                    sampleRate := 24000, frameCount := ([(0:ℚ)]).length }
    ∧ (([(0:ℚ)]).map (fun s => ((storedInt16 s : ℤ) : ℚ) / 32768)).length = ([(0:ℚ)]).length
    ∧ ∀ i, i < ([(0:ℚ)]).length →
        |(([(0:ℚ)]).map (fun s => ((storedInt16 s : ℤ) : ℚ) / 32768)).getD i 0
            - ([(0:ℚ)]).getD i 0| ≤ 1 / 32768 :=
  decodeChunk_encodeFrame_roundtrip [(0:ℚ)]
    (by intro s hs; simp at hs; subst hs; norm_num)

/-- C5: encodeFrame (createBlob) produces a chunk whose base64 text decodes
back to exactly 2n bytes for an n-sample input, produces an empty chunk on
zero-length input, and tags the chunk with the PCM MIME descriptor.  The
byte content is the little-endian serialization of each sample scaled by
32768 and truncated to 16 bits with wraparound (definition
createBlobBytes); the function is a pure function of its input. -/
theorem createBlob_encodes (S : List ℚ) :
    atobFn (createBlob S).data = some (createBlobBytes S)
    ∧ (createBlobBytes S).length = 2 * S.length
    ∧ (createBlob ([] : List ℚ)).data = []
    ∧ (createBlob S).mimeType = "audio/pcm;rate=16000" :=
  ⟨atobFn_btoaFn _ (createBlobBytes_lt S), createBlobBytes_length S, rfl, rfl⟩

/-- Appending a possibly-empty transcript fragment: the guarded update in
the handler equals a plain append (appending the empty string changes
nothing). -/
theorem transcription_step (st : SessionAudioState) (t : String) :
    (if t = "" then st else { st with transcription := st.transcription ++ t })
      = { st with transcription := st.transcription ++ t } := by
  split
  case isTrue h =>
    subst h
    cases st
    simp
  case isFalse h => rfl

/-- C4: an inbound audio payload whose base64-decoded byte length is odd
(not a multiple of 2 * channelCount with the channelCount of 1 used by the
session) makes decodeAudioData fail with MalformedAudioError, and the
message handler drops that single chunk: the transcript fragment is still
appended, no segment is scheduled, and the handler returns normally (the
rejection is only logged), leaving the rest of the session unaffected. -/
theorem malformed_audio_chunk_dropped (b64 bytes : List Nat) (st : SessionAudioState)
    (clock : ℚ) (t : String)
    (hdec : atobFn b64 = some bytes) (hodd : bytes.length % 2 = 1) :
    decodeAudioData bytes 24000 1 = Except.error "MalformedAudioError"
    ∧ processMessage st clock
        { outputTranscriptionText := some t, inlineAudioData := some b64 }
        = { st with transcription := st.transcription ++ t,
                    nextStartTime := max st.nextStartTime clock } := by
  have herr : decodeAudioData bytes 24000 1 = Except.error "MalformedAudioError" := by
    unfold decodeAudioData
    rw [if_pos (by omega)]
  have hne : b64 ≠ [] := by
    intro h
    subst h
    simp [atobFn] at hdec
    subst hdec
    simp at hodd
  refine ⟨herr, ?_⟩
  simp only [processMessage, transcription_step, hne, if_neg, hdec, herr]
  simp [hne]

/-- Witness for C4: the payload AA== decodes to the single byte [0], an odd
byte count. -/
theorem malformed_audio_chunk_dropped_witness :
    decodeAudioData [0] 24000 1 = Except.error "MalformedAudioError"
    ∧ processMessage { nextStartTime := 0, scheduled := [], transcription := "" } 0
        { outputTranscriptionText := some "x", inlineAudioData := some [65, 65, 61, 61] }
        = { nextStartTime := max 0 0, scheduled := [], transcription := "" ++ "x" } :=
  malformed_audio_chunk_dropped [65, 65, 61, 61] [0]
    { nextStartTime := 0, scheduled := [], transcription := "" } 0 "x"
    (by decide) (by decide)

/-- C7: a message carrying only a transcript fragment leaves the cursor and
the scheduled-segment list untouched and appends exactly the fragment to
the transcript; a message carrying both a fragment and a decodable audio
payload appends the fragment and also schedules exactly one segment at
max(cursor, clock). -/
theorem transcript_only_schedules_nothing (st : SessionAudioState) (clock : ℚ)
    (t : String) :
    processMessage st clock { outputTranscriptionText := some t, inlineAudioData := none }
        = { st with transcription := st.transcription ++ t }
    ∧ (∀ (b64 bytes : List Nat) (buf : AudioBuffer), b64 ≠ [] →
        atobFn b64 = some bytes → decodeAudioData bytes 24000 1 = Except.ok buf →
        processMessage st clock
            { outputTranscriptionText := some t, inlineAudioData := some b64 }
          = { st with transcription := st.transcription ++ t,
                      nextStartTime := max st.nextStartTime clock + buf.duration,
                      scheduled := st.scheduled ++ [(max st.nextStartTime clock, buf.duration)] }) := by
  constructor
  · simp only [processMessage, transcription_step]
  · intro b64 bytes buf hne hdec hok
    simp only [processMessage, transcription_step, hdec, hok]
    simp [hne]

/-- Witness for C7: a fragment-only message, and a message with fragment
plus the two-byte payload AAA= (one zero sample). -/
theorem transcript_only_schedules_nothing_witness :
    processMessage { nextStartTime := 0, scheduled := [], transcription := "" } 0
        { outputTranscriptionText := some "a", inlineAudioData := none }
        = { nextStartTime := 0, scheduled := [], transcription := "" ++ "a" }
    ∧ processMessage { nextStartTime := 0, scheduled := [], transcription := "" } 0
        { outputTranscriptionText := some "a", inlineAudioData := some [65, 65, 65, 61] }
        = { nextStartTime := max 0 0 +
              AudioBuffer.duration { channels := [[(0:ℚ)]], sampleRate := 24000, frameCount := 1 },
            scheduled := [] ++ [((max 0 0 : ℚ),
              AudioBuffer.duration { channels := [[(0:ℚ)]], sampleRate := 24000, frameCount := 1 })],
            transcription := "" ++ "a" } := by
  have h := transcript_only_schedules_nothing
    { nextStartTime := 0, scheduled := [], transcription := "" } 0 "a"
  exact ⟨h.1, h.2 [65, 65, 65, 61] [0, 0]
    { channels := [[(0:ℚ)]], sampleRate := 24000, frameCount := 1 }
    (by decide) (by decide)
    (by norm_num [decodeAudioData, bytesToInt16List, List.range_succ])⟩

/-- C6: starting a connection with an absent credential (no Vite key, no
window key — the resolution yields the empty string) fails immediately:
the status reports the missing key, the session stays inactive (Idle), and
the trace contains no client creation, no audio context creation, no
microphone acquisition and no live-connection opening. -/
theorem connect_missing_credential :
    resolveApiKey none none = ""
    ∧ resolveApiKey (some "") (some "") = ""
    ∧ (connect "").status = "Missing API key"
    ∧ (connect "").active = false
    ∧ Action.acquireMic ∉ (connect "").actions
    ∧ Action.openLiveConnection ∉ (connect "").actions
    ∧ Action.createClient ∉ (connect "").actions
    ∧ Action.createAudioContexts ∉ (connect "").actions := by
  refine ⟨rfl, rfl, rfl, rfl, ?_, ?_, ?_, ?_⟩ <;> decide

/-- C8: stopping a session that already reached the closed state (the state
disconnect itself leaves behind, with both refs back to null after the
reload) is a no-op: the second call stops zero media tracks, never calls
close on the output device — so nothing can be released twice or raise —
and leaves the state unchanged. -/
theorem disconnect_idempotent (st : LiveState) :
    (disconnect (disconnect st).1).2.tracksStopped = 0
    ∧ (disconnect (disconnect st).1).2.closeCalled = false
    ∧ (disconnect (disconnect st).1).1 = (disconnect st).1 :=
  ⟨rfl, rfl, rfl⟩

end LiveVoice
